import Mathlib

/-!
Verification development for the browser-challenge agent orchestrator.

Shallow embedding of:
- `src/agent.ts` — two orchestrator variants separated by a document marker:
  the TanStack AI variant (turn-loop chunk processing, outcome evaluation,
  challenge-driver bookkeeping) and the pi SDK variant (shared-state based
  escalation abort, same driver bookkeeping).
- `src/tools/enter-code.ts` — the `enter_code` tool (both variants).
- `src/tools/browser.ts` — the shared browser singleton and `closeBrowser`.
- `src/tools/shared-state.ts` — the pi variant's shared state.

Browser I/O is abstracted into environment records (what the page reported);
all control flow and data transformations are translated from the source.
-/

namespace AgentProof

/-! ## URL step parsing — `getStepFromUrl` (src/agent.ts lines 482-485 and 1739-1743)

`function getStepFromUrl(url) { const match = url.match(/\/step(\d+)/);
 return match ? parseInt(match[1], 10) : null; }` -/

/-- Value of a decimal digit run, as `parseInt(match[1], 10)` computes it. -/
def digitsVal (ds : List Char) : Nat :=
  ds.foldl (fun a c => a * 10 + (c.toNat - ('0').toNat)) 0

/-- Try to match `/step(\d+)` exactly at the head of the character list. -/
def stepAt (l : List Char) : Option Nat :=
  if ("/step").toList.isPrefixOf l then
    let ds := (l.drop 5).takeWhile Char.isDigit
    if ds.isEmpty then none else some (digitsVal ds)
  else none

/-- Scan for the first position where `/step(\d+)` matches (the regex finds
the first such occurrence in the URL). -/
def findStepNum : List Char → Option Nat
  | [] => none
  | c :: rest =>
    match stepAt (c :: rest) with
    | some n => some n
    | none => findStepNum rest

/-- `getStepFromUrl`: extract the step ordinal from a URL like `/step5?version=2`,
`null` (here `none`) when the pattern does not occur. -/
def getStepFromUrl (url : String) : Option Nat :=
  findStepNum url.data

/-- JavaScript truthiness of a `number | null` value: `null` and `0` are falsy.
The agent code tests `afterStep && afterStep > currentStep` etc. -/
def jsTruthy : Option Nat → Bool
  | none => false
  | some n => !(n == 0)

/-- The numeric value used in a JS comparison once truthiness is established
(`none` mapped to 0 for totality; comparisons guard with `jsTruthy` first). -/
def jsVal : Option Nat → Nat
  | none => 0
  | some n => n

/-! ## Substring containment — `String.prototype.includes` -/

/-- Does `p` occur as a contiguous block in `l`? (`url.includes(pat)`). -/
def infixOfAux (p : List Char) : List Char → Bool
  | [] => p.isPrefixOf ([] : List Char)
  | c :: t => p.isPrefixOf (c :: t) || infixOfAux p t

/-- `s.includes(pat)` on strings. -/
def containsSub (s pat : String) : Bool :=
  infixOfAux pat.data s.data

/-! ## Outcome classification — src/agent.ts lines 1180-1268 (TanStack variant;
the pi variant at lines 2000-2083 is structurally identical). -/

/-- The attempt outcome the driver dispatches on. `Escalated`/`Errored` are
handled by separate driver paths (the escalate guard and the catch block). -/
inductive Outcome where
  | completed
  | advanced (n : Nat)
  | regressed (n : Nat)
  | stalled
  deriving DecidableEq

/-- The completion-page test: `afterUrl === "completion" ||
afterUrl.includes("congratulations") || afterUrl.includes("complete")`. -/
def isCompletionUrl (u : String) : Bool :=
  u == "completion" || containsSub u "congratulations" || containsSub u "complete"

/-- The outcome evaluator as the code computes it (src/agent.ts 1180-1268):
`afterUrl = timings.lastEnterCodeUrl || ""`,
`afterStep = afterUrl ? getStepFromUrl(afterUrl) : null`, then the
completion / advanced / regressed / stalled chain.  The current `get_url()`
value is not consulted anywhere. -/
def classifyAfterUrl (currentStep : Nat) (captured : Option String) : Outcome :=
  let afterUrl := captured.getD ""
  let afterStep : Option Nat := if afterUrl = "" then none else getStepFromUrl afterUrl
  if isCompletionUrl afterUrl then .completed
  else if jsTruthy afterStep = true ∧ jsVal afterStep > currentStep then
    .advanced (jsVal afterStep)
  else if jsTruthy afterStep = true ∧ jsVal afterStep < currentStep then
    .regressed (jsVal afterStep)
  else .stalled

/-- The Outcome Evaluator exactly as the spec's words describe it (spec §4.3):
"let urlAfter = the last URL captured via a successful submit_code result
during the Attempt, or the current get_url() if none was captured".  Declared
only to compare the spec's algorithm against `classifyAfterUrl`; the
completion-page recognizer is shared with the code since the spec leaves it
abstract. -/
def specOutcomeEvaluator (stepBefore : Nat) (captured : Option String)
    (currentGetUrl : String) : Outcome :=
  let urlAfter := captured.getD currentGetUrl
  match getStepFromUrl urlAfter with
  | some n =>
    if isCompletionUrl urlAfter then .completed
    else if n > stepBefore then .advanced n
    else if n < stepBefore then .regressed n
    else .stalled
  | none =>
    if isCompletionUrl urlAfter then .completed else .stalled

/-! ## Challenge driver state — src/agent.ts lines 665-692 (TanStack) and
1762-1788 (pi).  Wall-clock timings and model-ID strings are abstracted;
the row's `model` field is represented by the tier index the attempt used
(`getModelForAttempt` computes it from `attemptForStep`). -/

/-- One row of `challengeResults` (`{ step, timeMs, tools, success, model }`;
the `timeMs`/`tools` observability fields play no role in control flow and are
omitted; `model` is represented by the ladder index used for the attempt). -/
structure ChallengeResult where
  step : Nat
  tier : Nat
  success : Bool
  deriving DecidableEq

/-- Driver bookkeeping carried across loop iterations:
`lastKnownStep`, `attemptForStep`, `totalRegressions`, `challengeResults`. -/
structure DriverState where
  lastKnownStep : Nat
  attemptForStep : Nat
  totalRegressions : Nat
  results : List ChallengeResult
  deriving DecidableEq

/-- Why the driver loop `break`s out early. -/
inductive FinishReason where
  | completedAll
  | targetReached
  | tooManyRegressions
  deriving DecidableEq

/-- Result of one driver iteration: continue looping, or break. -/
inductive DriverOut where
  | next (st : DriverState)
  | finished (st : DriverState) (why : FinishReason)
  deriving DecidableEq

/-- `getModelForAttempt`: `Math.min(attempt, MODEL_LADDER.length - 1)`,
returned here as the ladder index. -/
def getModelForAttempt (ladderLen attempt : Nat) : Nat :=
  min attempt (ladderLen - 1)

/-- One iteration of the driver's post-turn bookkeeping, src/agent.ts lines
1157-1268 (TanStack; the pi variant 2000-2083 differs only in its escalation
path, modelled separately by `piHandleEscalate`):
the escalate guard (`escalateRequested && !lastEnterCodeUrl`), then the
completion / advanced / regressed / stalled dispatch.  `maxAttempts` is
`MAX_ATTEMPTS = MODEL_LADDER.length`; `onlyMode` is `parsed.only`. -/
def driverIteration (maxAttempts : Nat) (onlyMode : Bool) (st : DriverState)
    (escalateRequested : Bool) (captured : Option String) : DriverOut :=
  if escalateRequested = true ∧ captured = none then
    if st.attemptForStep + 1 ≥ maxAttempts then
      .next { st with
        results := st.results ++
          [⟨st.lastKnownStep, getModelForAttempt maxAttempts st.attemptForStep, false⟩],
        attemptForStep := 0,
        lastKnownStep := st.lastKnownStep + 1 }
    else
      .next { st with attemptForStep := st.attemptForStep + 1 }
  else
    match classifyAfterUrl st.lastKnownStep captured with
    | .completed =>
      .finished { st with
        results := st.results ++
          [⟨st.lastKnownStep, getModelForAttempt maxAttempts st.attemptForStep, true⟩] }
        .completedAll
    | .advanced n =>
      let st' : DriverState := { st with
        results := st.results ++
          [⟨st.lastKnownStep, getModelForAttempt maxAttempts st.attemptForStep, true⟩],
        lastKnownStep := n,
        attemptForStep := 0 }
      if onlyMode then .finished st' .targetReached else .next st'
    | .regressed n =>
      let st' : DriverState := { st with
        lastKnownStep := n,
        attemptForStep := 0,
        totalRegressions := st.totalRegressions + 1 }
      if st.totalRegressions + 1 > 10 then .finished st' .tooManyRegressions
      else .next st'
    | .stalled =>
      let res := st.results ++
        [⟨st.lastKnownStep, getModelForAttempt maxAttempts st.attemptForStep, false⟩]
      if st.attemptForStep + 1 ≥ maxAttempts then
        .next { st with results := res, attemptForStep := 0,
                        lastKnownStep := st.lastKnownStep + 1 }
      else
        .next { st with results := res, attemptForStep := st.attemptForStep + 1 }

/-- The driver's `catch` block (src/agent.ts 1269-1294): record a failure,
increment the attempt counter, skip the step when the ladder is exhausted.
Treated by the code exactly like a stalled outcome. -/
def driverErrored (maxAttempts : Nat) (st : DriverState) : DriverState :=
  let res := st.results ++
    [⟨st.lastKnownStep, getModelForAttempt maxAttempts st.attemptForStep, false⟩]
  if st.attemptForStep + 1 ≥ maxAttempts then
    { st with results := res, attemptForStep := 0,
              lastKnownStep := st.lastKnownStep + 1 }
  else
    { st with results := res, attemptForStep := st.attemptForStep + 1 }

/-- What one driver iteration consumed: a normally-completed turn (with its
escalate flag and captured URL) or a turn that threw. -/
inductive DriverInput where
  | normal (escalateRequested : Bool) (captured : Option String)
  | errored
  deriving DecidableEq

/-- Dispatch one driver iteration on its input. -/
def driverStepInput (maxAttempts : Nat) (onlyMode : Bool) (st : DriverState) :
    DriverInput → DriverOut
  | .normal e c => driverIteration maxAttempts onlyMode st e c
  | .errored => .next (driverErrored maxAttempts st)

/-- Iterate the driver over a list of per-attempt inputs, stopping at a
`break` (the `while` guard `lastKnownStep <= finalStep` is external to the
per-iteration bookkeeping modelled here). -/
def driverRun (maxAttempts : Nat) (onlyMode : Bool) :
    DriverState → List DriverInput → DriverState × Option FinishReason
  | st, [] => (st, none)
  | st, i :: is =>
    match driverStepInput maxAttempts onlyMode st i with
    | .next st' => driverRun maxAttempts onlyMode st' is
    | .finished st' r => (st', some r)

/-- `consecSameStep k st L = true` when the first `k` driver iterations from
`st` on inputs `L` all continue the loop with `lastKnownStep` unchanged
(i.e. the driver makes `k` further attempts on the same challenge step). -/
def consecSameStep (maxAttempts : Nat) (onlyMode : Bool) :
    Nat → DriverState → List DriverInput → Bool
  | 0, _, _ => true
  | _ + 1, _, [] => false
  | k + 1, st, i :: is =>
    match driverStepInput maxAttempts onlyMode st i with
    | .next st' =>
      if st'.lastKnownStep = st.lastKnownStep then
        consecSameStep maxAttempts onlyMode k st' is
      else false
    | .finished _ _ => false

/-! ## TanStack turn loop — src/agent.ts lines 891-978 and 1007-1084:
per-tool-completion state tracking inside the stream loop.  Each event is one
tool completion with its parsed output; `abortController.abort()` ends the
stream, so once `aborted` is set later events have no effect. -/

/-- A tool-completion event as the TanStack chunk handler sees it:
`enter_code` with its parsed `newUrl` (absent on error results),
`scan_page_for_code` with its COMPLETED flag, `escalate`, or anything else. -/
inductive TsEvent where
  | enterCodeEv (newUrl : Option String)
  | scanEv (completed : Bool)
  | escalateEv
  | otherEv
  deriving DecidableEq

/-- The turn-relevant slice of `ChallengeTimings` plus the abort flag:
`lastEnterCodeUrl`, `escalateRequested`, and whether
`abortController.abort()` has fired for a step advance. -/
structure TsLoopState where
  lastEnterCodeUrl : Option String
  escalateRequested : Bool
  aborted : Bool
  deriving DecidableEq

/-- `newTimings()` start state: no URL captured, no escalate, stream live. -/
def tsInit : TsLoopState := ⟨none, false, false⟩

/-- The capture guard for an `enter_code` URL (src/agent.ts 918-920):
`!currentStepFromUrl || (newStep && newStep > currentStepFromUrl)` where
`currentStepFromUrl = getStepFromUrl(timings.lastEnterCodeUrl || "")`. -/
def tsCaptureCond (capturedUrl : Option String) (newUrl : String) : Bool :=
  let newStep := getStepFromUrl newUrl
  let curStep := getStepFromUrl (capturedUrl.getD "")
  !(jsTruthy curStep) || (jsTruthy newStep && decide (jsVal newStep > jsVal curStep))

/-- Process one tool-completion event (src/agent.ts 891-978): escalate sets
the flag; a COMPLETED scan overwrites the captured URL with `"completion"`;
an `enter_code` URL is captured under `tsCaptureCond`, and when its step
advances past `currentStep` the stream is aborted. -/
def tsStep (currentStep : Nat) (s : TsLoopState) (e : TsEvent) : TsLoopState :=
  if s.aborted then s
  else
    match e with
    | .escalateEv => { s with escalateRequested := true }
    | .scanEv c => if c then { s with lastEnterCodeUrl := some "completion" } else s
    | .enterCodeEv none => s
    | .enterCodeEv (some u) =>
      if tsCaptureCond s.lastEnterCodeUrl u then
        let s' : TsLoopState := { s with lastEnterCodeUrl := some u }
        if jsTruthy (getStepFromUrl u) = true ∧ jsVal (getStepFromUrl u) > currentStep then
          { s' with aborted := true }
        else s'
      else s
    | .otherEv => s

/-- Run the turn loop over a list of tool-completion events. -/
def tsRun (currentStep : Nat) : TsLoopState → List TsEvent → TsLoopState
  | s, [] => s
  | s, e :: es => tsRun currentStep (tsStep currentStep s e) es

/-- An event whose `enter_code` URL parses to a truthy step strictly past
`currentStep` — the abort trigger of src/agent.ts 922-924 / 975-978. -/
def tsAdvancing (currentStep : Nat) : TsEvent → Bool
  | .enterCodeEv (some u) =>
    jsTruthy (getStepFromUrl u) && decide (jsVal (getStepFromUrl u) > currentStep)
  | _ => false

/-- The parsed step of the currently captured URL, as the capture guard
reads it. -/
def tsCapStep (s : TsLoopState) : Option Nat :=
  getStepFromUrl (s.lastEnterCodeUrl.getD "")

/-! ## pi turn loop — src/agent.ts lines 1863-1956 (session subscriber) with
src/tools/shared-state.ts.  The tools mutate `sharedState` in-process; on every
`tool_execution_end` the subscriber checks the escalate-abort condition. -/

/-- `sharedState` from src/tools/shared-state.ts. -/
structure PiSharedState where
  lastEnterCodeUrl : Option String
  escalateRequested : Bool
  completionDetected : Bool
  deriving DecidableEq

/-- Loop state: the shared state plus the orchestrator's
`abortedForEscalate` flag. -/
structure PiLoopState where
  shared : PiSharedState
  abortedForEscalate : Bool
  deriving DecidableEq

/-- `sharedState.reset()` plus `abortedForEscalate = false` at attempt start. -/
def piInit : PiLoopState := ⟨⟨none, false, false⟩, false⟩

/-- A tool completion as the pi subscriber sees it.  `enterCodeEv (some u)`
is a submission whose URL changed to `u` (the tool then stores it in shared
state); `enterCodeEv none` is a failed/no-op submission. -/
inductive PiEvent where
  | enterCodeEv (urlChangedTo : Option String)
  | escalateEv
  | scanEv (completed : Bool)
  | otherEv
  deriving DecidableEq

/-- The shared-state mutation each tool performs while executing
(src/tools/enter-code.ts 313-315 sets `lastEnterCodeUrl` on URL change;
the escalate tool sets `escalateRequested`; the scan tool marks
`completionDetected` on a completion page). -/
def piApplyTool (s : PiSharedState) : PiEvent → PiSharedState
  | .enterCodeEv (some u) => { s with lastEnterCodeUrl := some u }
  | .enterCodeEv none => s
  | .escalateEv => { s with escalateRequested := true }
  | .scanEv c => if c then { s with completionDetected := true } else s
  | .otherEv => s

/-- The subscriber's check on `tool_execution_end` (src/agent.ts 1946-1952):
`sharedState.escalateRequested && !isOpus && !sharedState.lastEnterCodeUrl`
sets `abortedForEscalate` and aborts the session. -/
def piCheckAbort (isOpus : Bool) (st : PiLoopState) : PiLoopState :=
  if st.shared.escalateRequested = true ∧ isOpus = false ∧
      st.shared.lastEnterCodeUrl = none then
    { st with abortedForEscalate := true }
  else st

/-- One pi tool completion: once the session is aborted, later tool events no
longer run; otherwise apply the tool's shared-state effect and run the
subscriber's abort check. -/
def piStep (isOpus : Bool) (st : PiLoopState) (e : PiEvent) : PiLoopState :=
  if st.abortedForEscalate then st
  else piCheckAbort isOpus { st with shared := piApplyTool st.shared e }

/-- Run the pi turn loop over a list of tool completions. -/
def piRun (isOpus : Bool) : PiLoopState → List PiEvent → PiLoopState
  | st, [] => st
  | st, e :: es => piRun isOpus (piStep isOpus st e) es

/-- The pi driver's escalation handler (src/agent.ts 1966-1969): on an
escalate-abort, retry the same step at the stronger tier (`attemptForStep = 1`)
without touching results, step, or the regression counter. -/
def piHandleEscalate (st : DriverState) : DriverState :=
  { st with attemptForStep := 1 }

/-! ## The `enter_code` tool — src/tools/enter-code.ts.
Both variants share the same control flow: dismiss popups, locate an input
field (two passes of selector heuristics), fill it (one retry after a popup
dismiss), click a submit affordance or press Enter, wait 800ms, re-read the
URL, and succeed exactly when the URL changed.  The browser interactions are
abstracted into the environment record below. -/

/-- What the page did during one `enter_code` call. -/
structure EnterCodeEnv where
  /-- The code argument supplied by the model. -/
  code : String
  /-- `page.url()` before the submission (`beforeUrl`). -/
  beforeUrl : String
  /-- A candidate selector matched a visible input on the first pass. -/
  inputFoundFirstPass : Bool
  /-- The post-dismiss retry pass found a visible input. -/
  inputFoundRetry : Bool
  /-- `input.click` + `fill` succeeded on the first try. -/
  fillOkFirstTry : Bool
  /-- The fill retry after a second popup dismiss succeeded. -/
  fillOkRetry : Bool
  /-- The error message of the failed fill retry (`e2.message`). -/
  fillRetryErrMsg : String
  /-- `window.location.href` observed after the 800ms post-fill wait. -/
  afterUrl : String
  /-- `document.body.innerText` excerpt (`feedback.body`). -/
  bodyText : String

/-- The four possible results of `enterCode` (shared by both variants):
no input field, fill failure, URL unchanged ("submission did not advance"),
or success carrying the post-fill URL. -/
inductive EnterCodeOutcome where
  | noInput
  | fillError (msg : String)
  | rejected
  | ok (code newUrl prevUrl body : String)
  deriving DecidableEq

/-- An input field is located when either selector pass matched. -/
def enterCodeInputFound (env : EnterCodeEnv) : Bool :=
  env.inputFoundFirstPass || env.inputFoundRetry

/-- The fill succeeds when the first try or the retry does. -/
def enterCodeFillOk (env : EnterCodeEnv) : Bool :=
  env.fillOkFirstTry || env.fillOkRetry

/-- `enterCode` control flow (src/tools/enter-code.ts 23-156 and 180-329):
fail without an input field; fail if both fill attempts threw; after the
wait, compare `feedback.url` with `beforeUrl` — unchanged is a rejection,
changed is a success reporting exactly the observed URL. -/
def enterCodeOutcome (env : EnterCodeEnv) : EnterCodeOutcome :=
  if enterCodeInputFound env = false then .noInput
  else if enterCodeFillOk env = false then .fillError env.fillRetryErrMsg
  else if env.afterUrl = env.beforeUrl then .rejected
  else .ok env.code env.afterUrl env.beforeUrl env.bodyText

/-- The pi enter-code tool's shared-state write (src/tools/enter-code.ts
312-315): store the new URL only when it changed. -/
def piEnterCodeSharedUrl (env : EnterCodeEnv) : Option String :=
  if env.afterUrl = env.beforeUrl then none else some env.afterUrl

/-! ### Rendered tool-result text.
The TanStack variant returns `JSON.stringify({...})` strings; the pi variant
returns plain text lines.  Rendering is done on character lists so that
structural facts (leading brace, text prefixes) are provable. -/

/-- `JSON.stringify` escaping for the characters that can occur here. -/
def jsonEscChar (c : Char) : List Char :=
  if c = '"' then ['\\', '"']
  else if c = '\\' then ['\\', '\\']
  else if c = '\n' then ['\\', 'n']
  else [c]

/-- Escape a character list for embedding in a JSON string literal. -/
def jsonEsc (l : List Char) : List Char :=
  l.flatMap jsonEscChar

/-- The TanStack `enter_code` return text (src/tools/enter-code.ts 74, 92,
145, 148-155): always a serialized JSON object. -/
def tsEnterCodeChars (env : EnterCodeEnv) : List Char :=
  match enterCodeOutcome env with
  | .noInput => ("\x7b\"error\":\"no input field found.\"\x7d").toList
  | .fillError msg =>
    ("\x7b\"error\":\"").toList ++ jsonEsc msg.data ++ ("\"\x7d").toList
  | .rejected =>
    ("\x7b\"error\":\"submission did not advance; please take a step back to deduce why.\"\x7d").toList
  | .ok code newUrl prevUrl body =>
    ("\x7b\"status\":\"OK\",\"code\":\"").toList ++ jsonEsc code.data
      ++ ("\",\"newUrl\":\"").toList ++ jsonEsc newUrl.data
      ++ ("\",\"urlChanged\":true,\"prevUrl\":\"").toList ++ jsonEsc prevUrl.data
      ++ ("\",\"body\":\"").toList ++ jsonEsc body.data ++ ("\"\x7d").toList

/-- The pi `enter_code` return text (src/tools/enter-code.ts 238, 258, 319,
324): `"Error: ..."` lines on failure and the free-form
`OK: "<code>" | <url> | urlChanged=true | prev=<url>\n<body>` line on
success. -/
def piEnterCodeChars (env : EnterCodeEnv) : List Char :=
  match enterCodeOutcome env with
  | .noInput => ("Error: no input field found.").toList
  | .fillError msg => ("Error: ").toList ++ msg.data
  | .rejected =>
    ("Error: submission did not advance; please take a step back to deduce why.").toList
  | .ok code newUrl prevUrl body =>
    ("OK: \"").toList ++ code.data ++ ("\" | ").toList ++ newUrl.data
      ++ (" | urlChanged=true | prev=").toList ++ prevUrl.data
      ++ ("\n").toList ++ body.data

/-- The structural-result discriminator the orchestrator itself applies to
tool output (src/agent.ts 383-397 `looksLikeErrorOutput`): text is treated
as a machine-parseable JSON object exactly when it starts with a brace. -/
def isStructuredJsonText (l : List Char) : Bool :=
  match l with
  | [] => false
  | c :: _ => c = '\x7b'

/-! ## Browser singleton — src/tools/browser.ts. -/

/-- The module-level singleton slots (`browser`, `context`, `page`); handles
are abstracted to identifiers. -/
structure BrowserSingleton where
  browser : Option Nat
  context : Option Nat
  page : Option Nat
  deriving DecidableEq

/-- `closeBrowser` (src/tools/browser.ts 57-64): when a browser exists, call
`browser.close()` (the returned flag records that the close call happened)
and null all three slots; otherwise do nothing. -/
def closeBrowser (s : BrowserSingleton) : BrowserSingleton × Bool :=
  match s.browser with
  | some _ => (⟨none, none, none⟩, true)
  | none => (s, false)

/-! ## Concrete fixtures used by witnesses and counterexamples. -/

/-- A successful submission environment: input found, fill succeeded, the URL
moved from step 5 to step 6. -/
def envAdvance : EnterCodeEnv :=
  { code := "ABC123"
    beforeUrl := "https://x/step5"
    inputFoundFirstPass := true
    inputFoundRetry := false
    fillOkFirstTry := true
    fillOkRetry := false
    fillRetryErrMsg := ""
    afterUrl := "https://x/step6"
    bodyText := "Challenge 6" }

/-- A rejected submission environment: the URL did not change. -/
def envRejected : EnterCodeEnv :=
  { code := "WRONGG"
    beforeUrl := "https://x/step5"
    inputFoundFirstPass := true
    inputFoundRetry := false
    fillOkFirstTry := true
    fillOkRetry := false
    fillRetryErrMsg := ""
    afterUrl := "https://x/step5"
    bodyText := "Try again" }

/-- TanStack turn on step 5: escalate first, then a successful submission
that advances to step 6. -/
def c4Events : List TsEvent :=
  [TsEvent.escalateEv, TsEvent.enterCodeEv (some "https://x/step6")]

/-- Eleven consecutive regression inputs (step 12 down to step 1). -/
def regInputs11 : List DriverInput :=
  [DriverInput.normal false (some "https://x/step11"),
   DriverInput.normal false (some "https://x/step10"),
   DriverInput.normal false (some "https://x/step9"),
   DriverInput.normal false (some "https://x/step8"),
   DriverInput.normal false (some "https://x/step7"),
   DriverInput.normal false (some "https://x/step6"),
   DriverInput.normal false (some "https://x/step5"),
   DriverInput.normal false (some "https://x/step4"),
   DriverInput.normal false (some "https://x/step3"),
   DriverInput.normal false (some "https://x/step2"),
   DriverInput.normal false (some "https://x/step1")]

/-- The first ten of `regInputs11`. -/
def regInputs10 : List DriverInput :=
  regInputs11.take 10

/-- A fresh driver state positioned on step 12. -/
def regStart : DriverState := ⟨12, 0, 0, []⟩

/-- URLs whose steps are 2, 1, 3 — all below the current step 9, so the turn
never aborts and the capture rule keeps the maximum-step URL. -/
def c10Urls : List String :=
  ["https://x/step2", "https://x/step1", "https://x/step3"]

/-- The turn-loop event list for a sequence of `enter_code` reported URLs. -/
def enterEvents (urls : List String) : List TsEvent :=
  urls.map (fun u => TsEvent.enterCodeEv (some u))

/-! ## Helper lemmas -/

/-- A JS-truthy step value is nonzero. -/
theorem jsTruthy_val_ne_zero (o : Option Nat) (h : jsTruthy o = true) : jsVal o ≠ 0 := by
  cases o with
  | none => simp [jsTruthy] at h
  | some n => simpa [jsTruthy, jsVal] using h

/-- A JS-falsy step value reads as zero. -/
theorem jsVal_eq_zero_of_falsy (o : Option Nat) (h : jsTruthy o = false) : jsVal o = 0 := by
  cases o with
  | none => rfl
  | some n => simpa [jsTruthy, jsVal] using h

/-- A serialized JSON object stays one under appending. -/
theorem isStructuredJsonText_append (l r : List Char)
    (h : isStructuredJsonText l = true) : isStructuredJsonText (l ++ r) = true := by
  cases l with
  | nil => simp [isStructuredJsonText] at h
  | cons c t => simpa [isStructuredJsonText] using h

/-- A prefix of the left part is a prefix of the whole. -/
theorem isPrefixOf_append_left (p l r : List Char) (h : p.isPrefixOf l = true) :
    p.isPrefixOf (l ++ r) = true := by
  rw [List.isPrefixOf_iff_prefix] at h ⊢
  exact h.trans (List.prefix_append l r)

/-! ## C9 — idempotent browser teardown -/

/-- Claim C9: calling `closeBrowser` twice never double-closes: after one call
the browser slot is empty, and a second call (or a call on a never-opened
singleton) performs no `browser.close()` (flag `false`) and leaves the state
unchanged. -/
theorem C9_closeBrowser_idempotent (s : BrowserSingleton) :
    closeBrowser (closeBrowser s).1 = ((closeBrowser s).1, false) ∧
    (closeBrowser s).1.browser = none ∧
    (s.browser = none → closeBrowser s = (s, false)) := by
  obtain ⟨b, c, p⟩ := s
  cases b with
  | none => exact ⟨rfl, rfl, fun _ => rfl⟩
  | some x =>
    refine ⟨rfl, rfl, fun h => ?_⟩
    simp at h

/-- Witness for C9: closing an open singleton then closing again is a no-op,
and closing a never-opened singleton performs no close call. -/
theorem C9_closeBrowser_idempotent_witness :
    closeBrowser (closeBrowser ⟨some 1, some 2, some 3⟩).1 =
      ((closeBrowser ⟨some 1, some 2, some 3⟩).1, false) ∧
    closeBrowser (⟨none, none, none⟩ : BrowserSingleton) =
      (⟨none, none, none⟩, false) :=
  ⟨(C9_closeBrowser_idempotent ⟨some 1, some 2, some 3⟩).1,
   (C9_closeBrowser_idempotent ⟨none, none, none⟩).2.2 rfl⟩

/-! ## C3 — the submit_code URL contract -/

/-- Claim C3: for an `enter_code` call that reaches submission (an input field
was located and the fill succeeded), the result is the "did not advance"
failure exactly when the observed post-fill URL equals the pre-submission URL;
when the URL changed, the result is a success whose reported URL is exactly
the post-fill URL the page showed. -/
theorem C3_submit_code_url_contract (env : EnterCodeEnv)
    (hFound : enterCodeInputFound env = true) (hFill : enterCodeFillOk env = true) :
    (env.afterUrl = env.beforeUrl → enterCodeOutcome env = .rejected) ∧
    (env.afterUrl ≠ env.beforeUrl →
      enterCodeOutcome env = .ok env.code env.afterUrl env.beforeUrl env.bodyText) := by
  constructor <;> intro h <;> simp [enterCodeOutcome, hFound, hFill, h]

/-- Witness for C3 at two concrete environments: a same-URL submission is
rejected; a URL-changing submission succeeds with the observed URL. -/
theorem C3_submit_code_url_contract_witness :
    enterCodeOutcome envRejected = .rejected ∧
    enterCodeOutcome envAdvance = .ok "ABC123" "https://x/step6" "https://x/step5" "Challenge 6" := by
  refine ⟨(C3_submit_code_url_contract envRejected (by decide) (by decide)).1 (by decide), ?_⟩
  exact (C3_submit_code_url_contract envAdvance (by decide) (by decide)).2 (by decide)

/-! ## C1 — tool results are not of the `ToolResult<T>` shape -/

/-- Claim C1 counterexample: on a concrete successful submission, the pi
variant's `enter_code` returns the free-form prose line
`OK: "ABC123" | https://x/step6 | urlChanged=true | prev=https://x/step5 ...`
— not a serialized JSON object (the orchestrator's own `looksLikeErrorOutput`
discriminator rejects it), and the TanStack variant's JSON result carries no
`success` field at all.  So the returned value is not the
`{ success: boolean, data?, error? }` shape the claim asserts. -/
theorem C1_counterexample_prose_result :
    isStructuredJsonText (piEnterCodeChars envAdvance) = false ∧
    infixOfAux ("\"success\"").toList (tsEnterCodeChars envAdvance) = false ∧
    piEnterCodeChars envAdvance =
      ("OK: \"ABC123\" | https://x/step6 | urlChanged=true | prev=https://x/step5\nChallenge 6").toList := by
  decide

/-- Claim C1 (amended): every `enter_code` result is returned as text; the
TanStack variant always returns a serialized JSON object (leading brace,
with `error` or `status:"OK"` fields but no `success` boolean), while the pi
variant always returns a line starting `OK: ` or `Error: ` that the
orchestrator parses by prefix/regex. -/
theorem C1_amended_enter_code_result_shape (env : EnterCodeEnv) :
    isStructuredJsonText (tsEnterCodeChars env) = true ∧
    (("OK: ").toList.isPrefixOf (piEnterCodeChars env) = true ∨
      ("Error: ").toList.isPrefixOf (piEnterCodeChars env) = true) := by
  unfold tsEnterCodeChars piEnterCodeChars
  cases h : enterCodeOutcome env with
  | noInput => exact ⟨by decide, Or.inr (by decide)⟩
  | fillError msg =>
    refine ⟨?_, Or.inr ?_⟩
    · simp only [List.append_assoc]
      exact isStructuredJsonText_append _ _ (by decide)
    · exact isPrefixOf_append_left _ _ _ (by decide)
  | rejected => exact ⟨by decide, Or.inr (by decide)⟩
  | ok code newUrl prevUrl body =>
    refine ⟨?_, Or.inl ?_⟩
    · simp only [List.append_assoc]
      exact isStructuredJsonText_append _ _ (by decide)
    · simp only [List.append_assoc]
      exact isPrefixOf_append_left _ _ _ (by decide)

/-! ## C2 — outcome evaluation -/

/-- Claim C2 counterexample: with no URL captured during the Attempt but the
current page (as `get_url()` would report it) on step 7, the code's evaluator
returns `Stalled` while the spec's algorithm (fall back to the current
`get_url()`) returns `Advanced(7)`: the code never consults `get_url()`. -/
theorem C2_counterexample_no_geturl_fallback :
    classifyAfterUrl 5 none = Outcome.stalled ∧
    specOutcomeEvaluator 5 none "https://x/step7" = Outcome.advanced 7 ∧
    classifyAfterUrl 5 none ≠ specOutcomeEvaluator 5 none "https://x/step7" := by
  decide

/-- Claim C2 (amended): the outcome is computed from the captured
submit-code URL alone.  No captured URL means `Stalled` outright (the current
`get_url()` is never consulted); with a captured URL: a recognized completion
page gives `Completed`, a truthy parsed step above the launch step gives
`Advanced`, below gives `Regressed`, and an equal, zero, or unparseable step
gives `Stalled`. -/
theorem C2_amended_outcome_from_captured_url (s : Nat) (u : String) :
    classifyAfterUrl s none = Outcome.stalled ∧
    (isCompletionUrl u = true → classifyAfterUrl s (some u) = Outcome.completed) ∧
    (∀ n, isCompletionUrl u = false → getStepFromUrl u = some n → n ≠ 0 → s < n →
      classifyAfterUrl s (some u) = Outcome.advanced n) ∧
    (∀ n, isCompletionUrl u = false → getStepFromUrl u = some n → n ≠ 0 → n < s →
      classifyAfterUrl s (some u) = Outcome.regressed n) ∧
    (isCompletionUrl u = false →
      (getStepFromUrl u = none ∨ getStepFromUrl u = some 0 ∨ getStepFromUrl u = some s) →
      classifyAfterUrl s (some u) = Outcome.stalled) := by
  refine ⟨?_, ?_, ?_, ?_, ?_⟩
  · simp [classifyAfterUrl, show isCompletionUrl "" = false from by decide, jsTruthy]
  · intro hc
    simp [classifyAfterUrl, hc]
  · intro n hc hstep hn hlt
    have hne : u ≠ "" := by
      intro he
      have h0 : getStepFromUrl "" = none := by decide
      rw [he, h0] at hstep
      exact Option.noConfusion hstep
    have ht : jsTruthy (some n) = true := by simp [jsTruthy, hn]
    simp [classifyAfterUrl, hc, hne, hstep, ht, jsVal, hlt]
  · intro n hc hstep hn hlt
    have hne : u ≠ "" := by
      intro he
      have h0 : getStepFromUrl "" = none := by decide
      rw [he, h0] at hstep
      exact Option.noConfusion hstep
    have ht : jsTruthy (some n) = true := by simp [jsTruthy, hn]
    simp [classifyAfterUrl, hc, hne, hstep, ht, jsVal, hlt, Nat.not_lt.mpr (Nat.le_of_lt hlt)]
  · intro hc hcases
    by_cases hne : u = ""
    · simp [classifyAfterUrl, hne, show isCompletionUrl "" = false from by decide, jsTruthy]
    · rcases hcases with h0 | h0 | h0 <;>
        simp [classifyAfterUrl, hc, hne, h0, jsTruthy, jsVal]

/-- Witness for C2 (amended) at a concrete captured URL: step 7 captured
while launched for step 5 classifies as `Advanced(7)`. -/
theorem C2_amended_outcome_from_captured_url_witness :
    classifyAfterUrl 5 (some "https://x/step7") = Outcome.advanced 7 :=
  (C2_amended_outcome_from_captured_url 5 "https://x/step7").2.2.1 7
    (by decide) (by decide) (by decide) (by decide)

/-! ## TanStack turn-loop lemmas -/

/-- After an abort, an event changes nothing. -/
theorem tsStep_of_aborted (cs : Nat) (s : TsLoopState) (e : TsEvent)
    (h : s.aborted = true) : tsStep cs s e = s := by
  simp [tsStep, h]

/-- After an abort, the rest of the stream changes nothing. -/
theorem tsRun_of_aborted (cs : Nat) (s : TsLoopState) (es : List TsEvent)
    (h : s.aborted = true) : tsRun cs s es = s := by
  induction es with
  | nil => rfl
  | cons e es ih => rw [tsRun, tsStep_of_aborted cs s e h]; exact ih

/-- Splitting a run at a list concatenation. -/
theorem tsRun_append (cs : Nat) (l1 l2 : List TsEvent) (s : TsLoopState) :
    tsRun cs s (l1 ++ l2) = tsRun cs (tsRun cs s l1) l2 := by
  induction l1 generalizing s with
  | nil => rfl
  | cons e es ih => simpa [tsRun] using ih (tsStep cs s e)

/-- The abort flag never goes back down. -/
theorem tsStep_aborted_mono (cs : Nat) (s : TsLoopState) (e : TsEvent)
    (h : (tsStep cs s e).aborted = false) : s.aborted = false := by
  by_contra hc
  rw [Bool.not_eq_false] at hc
  rw [tsStep_of_aborted cs s e hc] at h
  rw [h] at hc
  exact Bool.false_ne_true hc

/-- The abort flag never goes back down across a run. -/
theorem tsRun_aborted_mono (cs : Nat) (s : TsLoopState) (es : List TsEvent)
    (h : (tsRun cs s es).aborted = false) : s.aborted = false := by
  induction es generalizing s with
  | nil => exact h
  | cons e es ih => exact tsStep_aborted_mono cs s e (ih (tsStep cs s e) h)

/-- Processing a non-advancing event preserves the turn-loop invariant: the
stream is live and the captured URL's truthy step never exceeds the launch
step. -/
theorem tsStep_preserves (cs : Nat) (s : TsLoopState) (e : TsEvent)
    (hA : s.aborted = false)
    (hCap : jsTruthy (tsCapStep s) = true → jsVal (tsCapStep s) ≤ cs)
    (hne : tsAdvancing cs e = false) :
    (tsStep cs s e).aborted = false ∧
    (jsTruthy (tsCapStep (tsStep cs s e)) = true →
      jsVal (tsCapStep (tsStep cs s e)) ≤ cs) := by
  unfold tsCapStep at hCap ⊢
  cases e with
  | escalateEv =>
    refine ⟨by simp [tsStep, hA], ?_⟩
    simpa [tsStep, hA] using hCap
  | otherEv =>
    refine ⟨by simp [tsStep, hA], ?_⟩
    simpa [tsStep, hA] using hCap
  | scanEv c =>
    cases c with
    | false =>
      refine ⟨by simp [tsStep, hA], ?_⟩
      simpa [tsStep, hA] using hCap
    | true =>
      refine ⟨by simp [tsStep, hA], ?_⟩
      have hurl : (tsStep cs s (TsEvent.scanEv true)).lastEnterCodeUrl =
          some "completion" := by simp [tsStep, hA]
      rw [hurl]
      intro h
      exact absurd h (by decide)
  | enterCodeEv o =>
    cases o with
    | none =>
      refine ⟨by simp [tsStep, hA], ?_⟩
      simpa [tsStep, hA] using hCap
    | some u =>
      have hC : ¬(jsTruthy (getStepFromUrl u) = true ∧
          jsVal (getStepFromUrl u) > cs) := by
        intro ⟨h1, h2⟩
        simp only [tsAdvancing, h1, Bool.true_and, decide_eq_false_iff_not] at hne
        exact hne h2
      by_cases hc : tsCaptureCond s.lastEnterCodeUrl u = true
      · have hs' : tsStep cs s (TsEvent.enterCodeEv (some u)) =
            { s with lastEnterCodeUrl := some u } := by
          simp [tsStep, hA, hc, hC]
        rw [hs']
        refine ⟨hA, ?_⟩
        intro h1
        simp only [Option.getD_some] at h1 ⊢
        by_contra h2
        push_neg at h2
        exact hC ⟨h1, h2⟩
      · rw [Bool.not_eq_true] at hc
        have hs' : tsStep cs s (TsEvent.enterCodeEv (some u)) = s := by
          simp [tsStep, hA, hc]
        rw [hs']
        exact ⟨hA, hCap⟩

/-- The invariant holds after any run of non-advancing events. -/
theorem tsRun_preserves (cs : Nat) (es : List TsEvent)
    (hne : ∀ e ∈ es, tsAdvancing cs e = false) :
    ∀ s : TsLoopState, s.aborted = false →
      (jsTruthy (tsCapStep s) = true → jsVal (tsCapStep s) ≤ cs) →
      (tsRun cs s es).aborted = false ∧
      (jsTruthy (tsCapStep (tsRun cs s es)) = true →
        jsVal (tsCapStep (tsRun cs s es)) ≤ cs) := by
  induction es with
  | nil => intro s hA hCap; exact ⟨hA, hCap⟩
  | cons e es ih =>
    intro s hA hCap
    have hstep := tsStep_preserves cs s e hA hCap (hne e (by simp))
    exact ih (fun x hx => hne x (by simp [hx])) (tsStep cs s e) hstep.1 hstep.2

/-- Under the invariant, an advancing `enter_code` result aborts the stream
at that very event. -/
theorem tsStep_advancing_aborts (cs : Nat) (s : TsLoopState) (e : TsEvent)
    (hA : s.aborted = false)
    (hCap : jsTruthy (tsCapStep s) = true → jsVal (tsCapStep s) ≤ cs)
    (hadv : tsAdvancing cs e = true) :
    (tsStep cs s e).aborted = true := by
  unfold tsCapStep at hCap
  cases e with
  | escalateEv => exact Bool.noConfusion hadv
  | otherEv => exact Bool.noConfusion hadv
  | scanEv c => exact Bool.noConfusion hadv
  | enterCodeEv o =>
    cases o with
    | none => exact Bool.noConfusion hadv
    | some u =>
      simp only [tsAdvancing, Bool.and_eq_true, decide_eq_true_eq] at hadv
      obtain ⟨ht, hgt⟩ := hadv
      have hcc : tsCaptureCond s.lastEnterCodeUrl u = true := by
        cases htc : jsTruthy (getStepFromUrl (s.lastEnterCodeUrl.getD "")) with
        | false => simp [tsCaptureCond, htc]
        | true =>
          have hle := hCap htc
          simp only [tsCaptureCond, htc, Bool.not_true, Bool.false_or, ht,
            Bool.true_and, decide_eq_true_eq]
          omega
      simp [tsStep, hA, hcc, ht, hgt]

/-! ## C5 — immediate abort on an advancing submission -/

/-- Claim C5: as soon as an `enter_code` result reports a URL whose truthy
parsed step exceeds the step the Attempt was launched for, the TanStack turn
loop aborts: the run up to and including that event equals the whole run (all
later events are dead), and the abort flag is set at that event. -/
theorem C5_turn_aborts_on_advancing_submit (cs : Nat) (pre post : List TsEvent)
    (e : TsEvent)
    (hpre : ∀ x ∈ pre, tsAdvancing cs x = false) (he : tsAdvancing cs e = true) :
    tsRun cs tsInit (pre ++ e :: post) = tsStep cs (tsRun cs tsInit pre) e ∧
    (tsStep cs (tsRun cs tsInit pre) e).aborted = true := by
  have hinit : (tsInit.aborted = false) ∧
      (jsTruthy (tsCapStep tsInit) = true → jsVal (tsCapStep tsInit) ≤ cs) := by
    refine ⟨rfl, fun h => absurd h (by decide)⟩
  have hinv := tsRun_preserves cs pre hpre tsInit hinit.1 hinit.2
  have habort := tsStep_advancing_aborts cs (tsRun cs tsInit pre) e hinv.1 hinv.2 he
  refine ⟨?_, habort⟩
  rw [tsRun_append cs pre (e :: post) tsInit, tsRun,
    tsRun_of_aborted cs _ post habort]

/-- Witness for C5: on step 5, after a harmless scan event, a submission
reporting step 6 aborts the turn on the spot. -/
theorem C5_turn_aborts_on_advancing_submit_witness :
    tsRun 5 tsInit
        ([TsEvent.scanEv false] ++ TsEvent.enterCodeEv (some "https://x/step6") :: [TsEvent.otherEv]) =
      tsStep 5 (tsRun 5 tsInit [TsEvent.scanEv false])
        (TsEvent.enterCodeEv (some "https://x/step6")) ∧
    (tsStep 5 (tsRun 5 tsInit [TsEvent.scanEv false])
        (TsEvent.enterCodeEv (some "https://x/step6"))).aborted = true :=
  C5_turn_aborts_on_advancing_submit 5 [TsEvent.scanEv false] [TsEvent.otherEv]
    (TsEvent.enterCodeEv (some "https://x/step6")) (by decide) (by decide)

/-! ## C10 — the enter-code URL capture rule -/

/-- Once a URL is captured it is never cleared, only replaced. -/
theorem tsStep_keeps_some (cs : Nat) (s : TsLoopState) (e : TsEvent) (x : String)
    (h : s.lastEnterCodeUrl = some x) :
    ∃ y, (tsStep cs s e).lastEnterCodeUrl = some y := by
  by_cases hA : s.aborted = true
  · exact ⟨x, by rw [tsStep_of_aborted cs s e hA]; exact h⟩
  · rw [Bool.not_eq_true] at hA
    cases e with
    | escalateEv => exact ⟨x, by simpa [tsStep, hA] using h⟩
    | otherEv => exact ⟨x, by simpa [tsStep, hA] using h⟩
    | scanEv c =>
      cases c with
      | false => exact ⟨x, by simpa [tsStep, hA] using h⟩
      | true => exact ⟨"completion", by simp [tsStep, hA]⟩
    | enterCodeEv o =>
      cases o with
      | none => exact ⟨x, by simpa [tsStep, hA] using h⟩
      | some u =>
        by_cases hc : tsCaptureCond s.lastEnterCodeUrl u = true
        · by_cases hCnd : jsTruthy (getStepFromUrl u) = true ∧
              jsVal (getStepFromUrl u) > cs
          · exact ⟨u, by simp [tsStep, hA, hc, hCnd]⟩
          · exact ⟨u, by simp [tsStep, hA, hc, hCnd]⟩
        · rw [Bool.not_eq_true] at hc
          exact ⟨x, by simpa [tsStep, hA, hc] using h⟩

/-- Once a URL is captured, some URL stays captured for the rest of the run. -/
theorem tsRun_keeps_some (cs : Nat) (es : List TsEvent) :
    ∀ (s : TsLoopState) (x : String), s.lastEnterCodeUrl = some x →
      ∃ y, (tsRun cs s es).lastEnterCodeUrl = some y := by
  induction es with
  | nil => intro s x h; exact ⟨x, h⟩
  | cons e es ih =>
    intro s x h
    obtain ⟨y, hy⟩ := tsStep_keeps_some cs s e x h
    exact ih (tsStep cs s e) y hy

/-- Folding `enter_code` events through a run that never aborts: the final
captured URL's step dominates every reported step, the final captured URL is
the original one or one of the reported ones, and the captured step never
decreases. -/
theorem tsRun_capture_dominates (cs : Nat) (urls : List String) :
    ∀ s : TsLoopState,
      (∀ u ∈ urls, jsTruthy (getStepFromUrl u) = true) →
      (tsRun cs s (enterEvents urls)).aborted = false →
      (∀ v ∈ urls, jsVal (getStepFromUrl v) ≤
        jsVal (tsCapStep (tsRun cs s (enterEvents urls)))) ∧
      ((tsRun cs s (enterEvents urls)).lastEnterCodeUrl = s.lastEnterCodeUrl ∨
        ∃ u ∈ urls, (tsRun cs s (enterEvents urls)).lastEnterCodeUrl = some u) ∧
      jsVal (tsCapStep s) ≤ jsVal (tsCapStep (tsRun cs s (enterEvents urls))) := by
  induction urls with
  | nil =>
    intro s _ _
    simp [enterEvents, tsRun]
  | cons u us ih =>
    intro s hall hfin
    have hcons : tsRun cs s (enterEvents (u :: us)) =
        tsRun cs (tsStep cs s (TsEvent.enterCodeEv (some u))) (enterEvents us) := by
      simp [enterEvents, tsRun]
    rw [hcons] at hfin ⊢
    have hs1A : (tsStep cs s (TsEvent.enterCodeEv (some u))).aborted = false :=
      tsRun_aborted_mono cs _ _ hfin
    have hsA : s.aborted = false := tsStep_aborted_mono cs s _ hs1A
    have htu : jsTruthy (getStepFromUrl u) = true := hall u (by simp)
    obtain ⟨ih1, ih2, ih3⟩ :=
      ih (tsStep cs s (TsEvent.enterCodeEv (some u)))
        (fun x hx => hall x (by simp [hx])) hfin
    by_cases hc : tsCaptureCond s.lastEnterCodeUrl u = true
    · by_cases hCnd : jsTruthy (getStepFromUrl u) = true ∧
          jsVal (getStepFromUrl u) > cs
      · exact absurd (by simp [tsStep, hsA, hc, hCnd] :
          (tsStep cs s (TsEvent.enterCodeEv (some u))).aborted = true)
          (by rw [hs1A]; exact Bool.false_ne_true)
      · have hs1 : tsStep cs s (TsEvent.enterCodeEv (some u)) =
            { s with lastEnterCodeUrl := some u } := by
          simp [tsStep, hsA, hc, hCnd]
        have hcap1 : tsCapStep (tsStep cs s (TsEvent.enterCodeEv (some u))) =
            getStepFromUrl u := by
          rw [hs1]; simp [tsCapStep]
        have hmono : jsVal (tsCapStep s) ≤ jsVal (getStepFromUrl u) := by
          cases htc : jsTruthy (tsCapStep s) with
          | false => rw [jsVal_eq_zero_of_falsy _ htc]; exact Nat.zero_le _
          | true =>
            unfold tsCapStep at htc
            simp only [tsCaptureCond, htc, Bool.not_true, Bool.false_or,
              Bool.and_eq_true, decide_eq_true_eq] at hc
            unfold tsCapStep
            omega
        refine ⟨?_, ?_, ?_⟩
        · intro v hv
          rcases List.mem_cons.mp hv with hv | hv
          · subst hv
            calc jsVal (getStepFromUrl v) =
                jsVal (tsCapStep (tsStep cs s (TsEvent.enterCodeEv (some v)))) := by
                  rw [hcap1]
              _ ≤ _ := ih3
          · exact ih1 v hv
        · rcases ih2 with h2 | ⟨w, hw, h2⟩
          · exact Or.inr ⟨u, by simp, h2.trans (by rw [hs1])⟩
          · exact Or.inr ⟨w, by simp [hw], h2⟩
        · calc jsVal (tsCapStep s) ≤ jsVal (getStepFromUrl u) := hmono
            _ = jsVal (tsCapStep (tsStep cs s (TsEvent.enterCodeEv (some u)))) := by
                rw [hcap1]
            _ ≤ _ := ih3
    · rw [Bool.not_eq_true] at hc
      have hs1 : tsStep cs s (TsEvent.enterCodeEv (some u)) = s := by
        simp [tsStep, hsA, hc]
      have hle : jsVal (getStepFromUrl u) ≤ jsVal (tsCapStep s) := by
        unfold tsCapStep
        simp only [tsCaptureCond, htu, Bool.true_and, Bool.or_eq_false_iff,
          Bool.not_eq_false, decide_eq_false_iff_not, Nat.not_lt] at hc
        exact hc.2
      rw [hs1] at ih1 ih2 ih3 ⊢
      refine ⟨?_, ?_, ih3⟩
      · intro v hv
        rcases List.mem_cons.mp hv with hv | hv
        · subst hv
          exact le_trans hle ih3
        · exact ih1 v hv
      · rcases ih2 with h2 | ⟨w, hw, h2⟩
        · exact Or.inl h2
        · exact Or.inr ⟨w, by simp [hw], h2⟩

/-- Claim C10 counterexample: with the Attempt launched for step 3, a first
`enter_code` result captures `https://x/congratulations`, and a second result
`https://x/done` replaces it even though neither URL carries a parsed step
ordinal at all — so the captured URL is not "only ever replaced by a URL whose
parsed step ordinal is strictly greater than that of the currently captured
URL". -/
theorem C10_counterexample_capture_replacement :
    (tsRun 3 tsInit [TsEvent.enterCodeEv (some "https://x/congratulations")]).lastEnterCodeUrl =
      some "https://x/congratulations" ∧
    (tsStep 3 (tsRun 3 tsInit [TsEvent.enterCodeEv (some "https://x/congratulations")])
        (TsEvent.enterCodeEv (some "https://x/done"))).lastEnterCodeUrl =
      some "https://x/done" ∧
    getStepFromUrl "https://x/congratulations" = none ∧
    getStepFromUrl "https://x/done" = none := by
  decide

/-- Claim C10 (amended): a reported URL replaces the captured one exactly when
the captured URL has no truthy parsed step or the new URL's truthy parsed step
is strictly greater; consequently, over an Attempt whose reported URLs all
carry truthy steps and whose turn never aborts, the finally captured URL is
one of the reported URLs and its step is the maximum of all reported steps —
the evaluator sees the maximum-step URL, not literally the last one. -/
theorem C10_amended_capture_max_step (cs : Nat) (u0 : String) (urls : List String)
    (hall : ∀ u ∈ u0 :: urls, jsTruthy (getStepFromUrl u) = true)
    (hfin : (tsRun cs tsInit (enterEvents (u0 :: urls))).aborted = false) :
    ∃ w ∈ u0 :: urls,
      (tsRun cs tsInit (enterEvents (u0 :: urls))).lastEnterCodeUrl = some w ∧
      ∀ v ∈ u0 :: urls, jsVal (getStepFromUrl v) ≤ jsVal (getStepFromUrl w) := by
  obtain ⟨h1, h2, _⟩ := tsRun_capture_dominates cs (u0 :: urls) tsInit hall hfin
  have hcons : tsRun cs tsInit (enterEvents (u0 :: urls)) =
      tsRun cs (tsStep cs tsInit (TsEvent.enterCodeEv (some u0))) (enterEvents urls) := by
    simp [enterEvents, tsRun]
  have hs1A : (tsStep cs tsInit (TsEvent.enterCodeEv (some u0))).aborted = false := by
    rw [hcons] at hfin
    exact tsRun_aborted_mono cs _ _ hfin
  have hcc : tsCaptureCond none u0 = true := by
    simp [tsCaptureCond, show getStepFromUrl "" = none from by decide, jsTruthy]
  have hs1 : (tsStep cs tsInit (TsEvent.enterCodeEv (some u0))).lastEnterCodeUrl =
      some u0 := by
    by_cases hCnd : jsTruthy (getStepFromUrl u0) = true ∧
        jsVal (getStepFromUrl u0) > cs
    · simp [tsStep, tsInit, hcc, hCnd]
    · simp [tsStep, tsInit, hcc, hCnd]
  obtain ⟨y, hy⟩ := tsRun_keeps_some cs (enterEvents urls) _ u0 hs1
  rcases h2 with h2 | ⟨w, hw, h2⟩
  · rw [hcons, hy] at h2
    exact absurd h2 (by simp [tsInit])
  · refine ⟨w, hw, h2, ?_⟩
    intro v hv
    have := h1 v hv
    rwa [show tsCapStep (tsRun cs tsInit (enterEvents (u0 :: urls))) =
      getStepFromUrl w by unfold tsCapStep; rw [h2]; rfl] at this

/-- Witness for C10 (amended): on step 9, reported steps 2, 1, 3 end with the
step-3 URL captured, dominating all reported steps. -/
theorem C10_amended_capture_max_step_witness :
    ∃ w ∈ "https://x/step2" :: ["https://x/step1", "https://x/step3"],
      (tsRun 9 tsInit
        (enterEvents ("https://x/step2" :: ["https://x/step1", "https://x/step3"]))).lastEnterCodeUrl =
        some w ∧
      ∀ v ∈ "https://x/step2" :: ["https://x/step1", "https://x/step3"],
        jsVal (getStepFromUrl v) ≤ jsVal (getStepFromUrl w) :=
  C10_amended_capture_max_step 9 "https://x/step2" ["https://x/step1", "https://x/step3"]
    (by decide) (by decide)

/-! ## C4 — escalation handling -/

/-- After the pi session aborts, later tool events no longer run. -/
theorem piStep_of_aborted (isOpus : Bool) (st : PiLoopState) (e : PiEvent)
    (h : st.abortedForEscalate = true) : piStep isOpus st e = st := by
  simp [piStep, h]

/-- After the pi session aborts, the rest of the event list is dead. -/
theorem piRun_of_aborted (isOpus : Bool) (st : PiLoopState) (es : List PiEvent)
    (h : st.abortedForEscalate = true) : piRun isOpus st es = st := by
  induction es with
  | nil => rfl
  | cons e es ih => rw [piRun, piStep_of_aborted isOpus st e h]; exact ih

/-- Splitting a pi run at a list concatenation. -/
theorem piRun_append (isOpus : Bool) (l1 l2 : List PiEvent) (st : PiLoopState) :
    piRun isOpus st (l1 ++ l2) = piRun isOpus (piRun isOpus st l1) l2 := by
  induction l1 generalizing st with
  | nil => rfl
  | cons e es ih => simpa [piRun] using ih (piStep isOpus st e)

/-- Claim C4 counterexample (TanStack variant): launched for step 5 with the
single-model ladder, the model calls `escalate` first — yet the turn is NOT
aborted (`aborted = false` after the escalate event) — and a later successful
submission to step 6 is still processed and captured; the driver then takes
the Advanced path, records a success row, and moves to step 6.  So the
outcome is not `Escalated`, the turn was not aborted at the escalate call,
and the later tool call did affect the outcome — contradicting the claim. -/
theorem C4_counterexample_tanstack_no_abort :
    (tsRun 5 tsInit [TsEvent.escalateEv]).aborted = false ∧
    (tsRun 5 tsInit c4Events).escalateRequested = true ∧
    (tsRun 5 tsInit c4Events).lastEnterCodeUrl = some "https://x/step6" ∧
    driverIteration 1 false ⟨5, 0, 0, []⟩ (tsRun 5 tsInit c4Events).escalateRequested
        (tsRun 5 tsInit c4Events).lastEnterCodeUrl =
      .next ⟨6, 0, 0, [⟨5, 0, true⟩]⟩ := by
  decide

/-- Claim C4 (amended): in the pi orchestrator, when `escalate` is invoked at
a non-top tier before any URL-changing submission has been stored, the
session aborts at that very tool completion — all later tool events of the
turn are dead — and the driver then retries the same step at tier 1 without
recording a failure or touching the regression counter.  (In the TanStack
orchestrator the escalate call only sets a flag; the turn runs on, and
escalation is honored at end of turn only if no submit URL was captured
during the whole turn.) -/
theorem C4_amended_pi_escalate_abort (pre post : List PiEvent)
    (h1 : (piRun false piInit pre).abortedForEscalate = false)
    (h2 : (piRun false piInit pre).shared.lastEnterCodeUrl = none) :
    piRun false piInit (pre ++ PiEvent.escalateEv :: post) =
      piStep false (piRun false piInit pre) PiEvent.escalateEv ∧
    (piStep false (piRun false piInit pre) PiEvent.escalateEv).abortedForEscalate = true ∧
    ∀ dst : DriverState,
      (piHandleEscalate dst).results = dst.results ∧
      (piHandleEscalate dst).lastKnownStep = dst.lastKnownStep ∧
      (piHandleEscalate dst).totalRegressions = dst.totalRegressions ∧
      (piHandleEscalate dst).attemptForStep = 1 := by
  have habort : (piStep false (piRun false piInit pre) PiEvent.escalateEv).abortedForEscalate =
      true := by
    simp [piStep, h1, piApplyTool, piCheckAbort, h2]
  refine ⟨?_, habort, fun dst => ⟨rfl, rfl, rfl, rfl⟩⟩
  rw [piRun_append false pre (PiEvent.escalateEv :: post) piInit, piRun,
    piRun_of_aborted false _ post habort]

/-- Witness for C4 (amended): an empty prefix, then `escalate`, then a
would-be successful submission: the run stops at the escalate event. -/
theorem C4_amended_pi_escalate_abort_witness :
    piRun false piInit ([] ++ PiEvent.escalateEv :: [PiEvent.enterCodeEv (some "https://x/step6")]) =
      piStep false (piRun false piInit []) PiEvent.escalateEv ∧
    (piStep false (piRun false piInit []) PiEvent.escalateEv).abortedForEscalate = true :=
  ⟨(C4_amended_pi_escalate_abort [] [PiEvent.enterCodeEv (some "https://x/step6")]
      (by decide) (by decide)).1,
   (C4_amended_pi_escalate_abort [] [PiEvent.enterCodeEv (some "https://x/step6")]
      (by decide) (by decide)).2.1⟩

/-! ## Driver dispatch lemmas -/

/-- An `Advanced` classification carries a nonzero step strictly above the
launch step. -/
theorem classify_advanced_bounds (s : Nat) (c : Option String) (n : Nat)
    (h : classifyAfterUrl s c = .advanced n) : n ≠ 0 ∧ s < n := by
  simp only [classifyAfterUrl] at h
  split_ifs at h
  all_goals
    first
    | exact Outcome.noConfusion h
    | (rename_i hcond
       injection h with hn
       subst hn
       exact ⟨jsTruthy_val_ne_zero _ hcond.1, hcond.2⟩)

/-- A `Regressed` classification carries a nonzero step strictly below the
launch step. -/
theorem classify_regressed_bounds (s : Nat) (c : Option String) (n : Nat)
    (h : classifyAfterUrl s c = .regressed n) : n ≠ 0 ∧ n < s := by
  simp only [classifyAfterUrl] at h
  split_ifs at h
  all_goals
    first
    | exact Outcome.noConfusion h
    | (rename_i hcond
       injection h with hn
       subst hn
       exact ⟨jsTruthy_val_ne_zero _ hcond.1, hcond.2⟩)

/-- Every driver continuation either stays on the same step with the attempt
counter incremented (and strictly under the ladder length), or moves to a
different step with the attempt counter reset to 0. -/
theorem driver_next_cases (ma : Nat) (only : Bool) (st : DriverState) (i : DriverInput)
    (st' : DriverState) (h : driverStepInput ma only st i = .next st') :
    (st'.lastKnownStep = st.lastKnownStep ∧ st'.attemptForStep = st.attemptForStep + 1 ∧
      st.attemptForStep + 1 < ma) ∨
    (st'.lastKnownStep ≠ st.lastKnownStep ∧ st'.attemptForStep = 0) := by
  cases i with
  | errored =>
    simp only [driverStepInput, DriverOut.next.injEq] at h
    subst h
    simp only [driverErrored]
    by_cases hm : st.attemptForStep + 1 ≥ ma
    · right
      rw [if_pos hm]
      exact ⟨by simp, rfl⟩
    · left
      rw [if_neg hm]
      exact ⟨rfl, rfl, by omega⟩
  | normal e c =>
    simp only [driverStepInput, driverIteration] at h
    by_cases hesc : e = true ∧ c = none
    · rw [if_pos hesc] at h
      by_cases hm : st.attemptForStep + 1 ≥ ma
      · rw [if_pos hm] at h
        injection h with h
        subst h
        right
        exact ⟨by simp, rfl⟩
      · rw [if_neg hm] at h
        injection h with h
        subst h
        left
        exact ⟨rfl, rfl, by omega⟩
    · rw [if_neg hesc] at h
      cases hcl : classifyAfterUrl st.lastKnownStep c with
      | completed =>
        simp only [hcl] at h
        exact absurd h (by simp)
      | advanced n =>
        simp only [hcl] at h
        obtain ⟨hn0, hlt⟩ := classify_advanced_bounds st.lastKnownStep c n hcl
        by_cases ho : only = true
        · rw [if_pos ho] at h
          exact absurd h (by simp)
        · rw [if_neg ho] at h
          injection h with h
          subst h
          right
          exact ⟨by simp; omega, rfl⟩
      | regressed n =>
        simp only [hcl] at h
        obtain ⟨hn0, hlt⟩ := classify_regressed_bounds st.lastKnownStep c n hcl
        by_cases hr : st.totalRegressions + 1 > 10
        · rw [if_pos hr] at h
          exact absurd h (by simp)
        · rw [if_neg hr] at h
          injection h with h
          subst h
          right
          exact ⟨by simp; omega, rfl⟩
      | stalled =>
        simp only [hcl] at h
        by_cases hm : st.attemptForStep + 1 ≥ ma
        · rw [if_pos hm] at h
          injection h with h
          subst h
          right
          exact ⟨by simp, rfl⟩
        · rw [if_neg hm] at h
          injection h with h
          subst h
          left
          exact ⟨rfl, rfl, by omega⟩

/-- Any maximal run of same-step continuations is strictly shorter than the
ladder allows: after `k ≥ 1` same-step continuations the attempt counter has
reached `attemptForStep + k < maxAttempts`. -/
theorem consecSameStep_bound (ma : Nat) (only : Bool) :
    ∀ (k : Nat) (st : DriverState) (L : List DriverInput),
      consecSameStep ma only k st L = true → k ≠ 0 →
      st.attemptForStep + k < ma := by
  intro k
  induction k with
  | zero => intro st L _ hk; exact absurd rfl hk
  | succ k ih =>
    intro st L h _
    cases L with
    | nil => exact absurd h (by simp [consecSameStep])
    | cons i is =>
      rw [consecSameStep] at h
      cases hd : driverStepInput ma only st i with
      | next st' =>
        simp only [hd] at h
        by_cases hs : st'.lastKnownStep = st.lastKnownStep
        · rw [if_pos hs] at h
          rcases driver_next_cases ma only st i st' hd with ⟨_, h2, h3⟩ | ⟨h1, _⟩
          · rcases Nat.eq_zero_or_pos k with hk0 | hkpos
            · subst hk0; omega
            · have hb := ih st' is h (by omega)
              rw [h2] at hb
              omega
          · exact absurd hs h1
        · rw [if_neg hs] at h
          exact absurd h (by simp)
      | finished st' r =>
        simp only [hd] at h
        exact absurd h (by simp)

/-! ## C7 — tier monotonicity and reset discipline -/

/-- Claim C7: across consecutive driver continuations, staying on the same
step always increments the tier index by exactly one (so the tier index is
non-decreasing over attempts on one step), and the tier index is reset to 0
exactly when the driver moves to a different step — which happens precisely
on Advanced, Regressed, and tier-exhaustion skips (a Completed outcome
terminates the run, so no further attempt exists). -/
theorem C7_tier_monotonic_reset (ma : Nat) (only : Bool) (st : DriverState)
    (i : DriverInput) (st' : DriverState)
    (h : driverStepInput ma only st i = .next st') :
    (st'.lastKnownStep = st.lastKnownStep →
      st'.attemptForStep = st.attemptForStep + 1) ∧
    (st'.attemptForStep = 0 ↔ st'.lastKnownStep ≠ st.lastKnownStep) := by
  rcases driver_next_cases ma only st i st' h with ⟨h1, h2, _⟩ | ⟨h1, h2⟩
  · refine ⟨fun _ => h2, ?_, ?_⟩
    · intro hz
      rw [h2] at hz
      omega
    · intro hne
      exact absurd h1 hne
  · exact ⟨fun hs => absurd hs h1, fun _ => h1, fun _ => h2⟩

/-- Witness for C7: a stalled attempt on step 5 at tier 0 of a two-rung
ladder continues on step 5 with the tier incremented to 1, not reset. -/
theorem C7_tier_monotonic_reset_witness :
    ((⟨5, 1, 0, [⟨5, 0, false⟩]⟩ : DriverState).lastKnownStep =
        (⟨5, 0, 0, []⟩ : DriverState).lastKnownStep →
      (⟨5, 1, 0, [⟨5, 0, false⟩]⟩ : DriverState).attemptForStep =
        (⟨5, 0, 0, []⟩ : DriverState).attemptForStep + 1) ∧
    ((⟨5, 1, 0, [⟨5, 0, false⟩]⟩ : DriverState).attemptForStep = 0 ↔
      (⟨5, 1, 0, [⟨5, 0, false⟩]⟩ : DriverState).lastKnownStep ≠
        (⟨5, 0, 0, []⟩ : DriverState).lastKnownStep) :=
  C7_tier_monotonic_reset 2 false ⟨5, 0, 0, []⟩
    (DriverInput.normal false (some "https://x/step5")) ⟨5, 1, 0, [⟨5, 0, false⟩]⟩
    (by decide)

/-! ## C8 — stalled/errored bookkeeping and the skip rule -/

/-- Claim C8: a Stalled outcome (outside the escalate guard) is handled by
exactly the same bookkeeping as a turn-level error (`driverErrored`): a
failure row for the current step and tier is recorded; below the ladder
length the tier index increments and the step stays; at the ladder length the
step advances by exactly one and the tier resets to 0.  Consequently the
driver never runs more than ladder-length consecutive attempts on one step:
`k ≥ 1` same-step continuations force `attemptForStep + k < maxAttempts`. -/
theorem C8_stalled_failure_and_skip (ma : Nat) (only : Bool) (st : DriverState)
    (escReq : Bool) (captured : Option String) :
    (¬(escReq = true ∧ captured = none) →
      classifyAfterUrl st.lastKnownStep captured = .stalled →
      driverIteration ma only st escReq captured = .next (driverErrored ma st)) ∧
    (driverErrored ma st).results =
      st.results ++ [⟨st.lastKnownStep, getModelForAttempt ma st.attemptForStep, false⟩] ∧
    (st.attemptForStep + 1 < ma →
      (driverErrored ma st).attemptForStep = st.attemptForStep + 1 ∧
      (driverErrored ma st).lastKnownStep = st.lastKnownStep) ∧
    (st.attemptForStep + 1 ≥ ma →
      (driverErrored ma st).attemptForStep = 0 ∧
      (driverErrored ma st).lastKnownStep = st.lastKnownStep + 1) ∧
    (∀ (k : Nat) (L : List DriverInput),
      consecSameStep ma only k st L = true → k ≠ 0 →
      st.attemptForStep + k < ma) := by
  refine ⟨?_, ?_, ?_, ?_, fun k L => consecSameStep_bound ma only k st L⟩
  · intro hesc hcl
    unfold driverIteration
    rw [if_neg hesc]
    simp only [hcl, driverErrored]
    by_cases hm : st.attemptForStep + 1 ≥ ma
    · rw [if_pos hm, if_pos hm]
    · rw [if_neg hm, if_neg hm]
  · simp only [driverErrored]
    split_ifs <;> rfl
  · intro hlt
    simp only [driverErrored]
    rw [if_neg (show ¬(st.attemptForStep + 1 ≥ ma) by omega)]
    exact ⟨rfl, rfl⟩
  · intro hge
    simp only [driverErrored]
    rw [if_pos hge]
    exact ⟨rfl, rfl⟩

/-- Witness for C8: a stalled attempt at tier 0 of a two-rung ladder takes
the `driverErrored` bookkeeping, and a one-long same-step run respects the
bound `0 + 1 < 2`. -/
theorem C8_stalled_failure_and_skip_witness :
    driverIteration 2 false ⟨5, 0, 0, []⟩ false (some "https://x/step5") =
      .next (driverErrored 2 ⟨5, 0, 0, []⟩) ∧
    (0 : Nat) + 1 < 2 :=
  ⟨(C8_stalled_failure_and_skip 2 false ⟨5, 0, 0, []⟩ false (some "https://x/step5")).1
      (by decide) (by decide),
   (C8_stalled_failure_and_skip 2 false ⟨5, 0, 0, []⟩ false (some "https://x/step5")).2.2.2.2
      1 [DriverInput.normal false (some "https://x/step5")] (by decide) (by decide)⟩

/-! ## C6 — regression bookkeeping and the safety ceiling -/

/-- Claim C6: a Regressed outcome sets the current step to the regressed-to
step, resets the tier index to 0, increments the regression counter, records
no failure row (the results list is unchanged), and terminates the run
exactly when the counter passes the ceiling 10; concretely, from a fresh
state ten consecutive regressions leave the run alive with counter 10, and
the eleventh terminates it as unrecoverable. -/
theorem C6_regression_handling_and_ceiling (ma : Nat) (only : Bool) (st : DriverState)
    (escReq : Bool) (u : String) (n : Nat)
    (hcl : classifyAfterUrl st.lastKnownStep (some u) = .regressed n) :
    (st.totalRegressions + 1 > 10 →
      driverIteration ma only st escReq (some u) =
        .finished ⟨n, 0, st.totalRegressions + 1, st.results⟩ .tooManyRegressions) ∧
    (st.totalRegressions + 1 ≤ 10 →
      driverIteration ma only st escReq (some u) =
        .next ⟨n, 0, st.totalRegressions + 1, st.results⟩) ∧
    driverRun 2 false regStart regInputs10 = (⟨2, 0, 10, []⟩, none) ∧
    driverRun 2 false regStart regInputs11 =
      (⟨1, 0, 11, []⟩, some .tooManyRegressions) := by
  have hesc : ¬(escReq = true ∧ (some u : Option String) = none) := by
    intro ⟨_, hc⟩
    exact Option.noConfusion hc
  refine ⟨?_, ?_, by decide, by decide⟩
  · intro hr
    unfold driverIteration
    rw [if_neg hesc]
    simp only [hcl]
    rw [if_pos hr]
  · intro hr
    unfold driverIteration
    rw [if_neg hesc]
    simp only [hcl]
    rw [if_neg (show ¬(st.totalRegressions + 1 > 10) by omega)]

/-- Witness for C6: from the fresh step-12 state, a regression to step 11
continues with the counter at 1, the tier reset, and no failure recorded. -/
theorem C6_regression_handling_and_ceiling_witness :
    driverIteration 2 false regStart false (some "https://x/step11") =
      .next ⟨11, 0, 1, []⟩ :=
  (C6_regression_handling_and_ceiling 2 false regStart false "https://x/step11" 11
      (by decide)).2.1 (by decide)

end AgentProof
